import Mathlib

/-!
Shallow embedding of the `fusion` repository's synchronization core
(`src/fusion/fs_sync.py` and `src/fusion/fusion_filesystem.py`) and proofs of
the specification claims about it.

Modelling conventions:
* a byte string is a `List Nat` (`Bytes`);
* a `hashlib.md5()` object is modelled by the byte sequence fed to it so far
  (`update` appends, as hashlib's incremental interface hashes the
  concatenation of all updates); the external digest algorithm itself is an
  arbitrary function `md5 : Bytes → Bytes` and `base64.b64encode(..).decode()`
  an arbitrary encoding `b64 : Bytes → String` — both live in the Python
  standard library, outside this repository, and every theorem below holds
  for all such functions;
* pandas dataframes of file records are lists of `FileRecord`; a pandas `NaN`
  arising from a non-matching merge is `Option.none`.
-/

/-- Byte strings, as lists of byte values. -/
abbrev Bytes := List Nat

/-- Repeated `file.read(chunk_size)` until an empty read: splits `b` into
consecutive pieces of length `chunk_size` (the last one possibly shorter).
`read(0)` returns an empty bytes object at once, so a zero chunk size yields
no chunks. -/
def chunksOf (chunk_size : Nat) (b : Bytes) : List Bytes :=
  if h : chunk_size = 0 ∨ b = [] then []
  else b.take chunk_size :: chunksOf chunk_size (b.drop chunk_size)
termination_by b.length
decreasing_by
  simp only [List.length_drop]
  rcases Nat.eq_zero_or_pos chunk_size with h0 | h0
  · exact absurd (Or.inl h0) h
  · have hb : b ≠ [] := fun hb => h (Or.inr hb)
    have : 0 < b.length := List.length_pos.mpr hb
    omega

/-- The `Digest`-carrying headers attached to one uploaded chunk
(`headers_chunks` in `_construct_headers`). -/
structure ChunkHeaders where
  contentType : String
  digest : String
deriving DecidableEq

/-- The whole-file headers built by `_construct_headers` (`headers`), carried
by the finalize request. -/
structure UploadHeaders where
  contentType : String
  createdDate : String
  fromDate : String
  toDate : String
  digest : String
deriving DecidableEq

/-- One loop iteration of `_construct_headers`: feed the chunk into the
running `hash_md5` state (the bytes hashed so far) and append a fresh header
dict whose `Digest` is the digest of the state reached so far. -/
def hdrStep (md5 : Bytes → Bytes) (b64 : Bytes → String) :
    Bytes × List ChunkHeaders → Bytes → Bytes × List ChunkHeaders :=
  fun s chunk =>
    let hash_md5 := s.1 ++ chunk
    (hash_md5, s.2 ++ [⟨"application/octet-stream", "md5=" ++ b64 (md5 hash_md5)⟩])

/-- Embedding of `FusionHTTPFileSystem._construct_headers`: reads `file_local` in
`chunk_size` pieces, maintains one running md5 over everything read so far,
and emits per-chunk headers (whose `Digest` is the running digest at that
point) plus whole-file headers whose `Digest` is the digest of the full
content. -/
def construct_headers (md5 : Bytes → Bytes) (b64 : Bytes → String)
    (file_local : Bytes) (dt_iso : String) (chunk_size : Nat) :
    UploadHeaders × List ChunkHeaders :=
  let r := (chunksOf chunk_size file_local).foldl (hdrStep md5 b64) ([], [])
  (⟨"application/octet-stream", dt_iso, dt_iso, dt_iso,
    "md5=" ++ b64 (md5 r.1)⟩, r.2)

/-- The `_generate_md5_token` loop generalized over the read block size (the source
fixes 4096): folds each block into one running md5 and encodes the final
digest. -/
def generate_md5_token_block (md5 : Bytes → Bytes) (b64 : Bytes → String)
    (block_size : Nat) (content : Bytes) : String :=
  let hash_md5 := (chunksOf block_size content).foldl (fun s chunk => s ++ chunk) []
  b64 (md5 hash_md5)

/-- Embedding of `fs_sync._generate_md5_token`: reads the stream in 4096-byte blocks,
folds each block into a running md5, returns the base64-encoded digest.
(The per-block `hash_md5_chunk` in the source is dead code and not
modelled.) -/
def generate_md5_token (md5 : Bytes → Bytes) (b64 : Bytes → String)
    (content : Bytes) : String :=
  generate_md5_token_block md5 b64 4096 content

lemma chunksOf_nil (chunk_size : Nat) : chunksOf chunk_size [] = [] := by
  rw [chunksOf]
  simp

lemma chunksOf_flatten (chunk_size : Nat) (hcs : 0 < chunk_size) (b : Bytes) :
    (chunksOf chunk_size b).flatten = b := by
  have H : ∀ n, ∀ b : Bytes, b.length ≤ n → (chunksOf chunk_size b).flatten = b := by
    intro n
    induction n with
    | zero =>
      intro b hb
      have hbe : b = [] := List.eq_nil_of_length_eq_zero (Nat.le_zero.mp hb)
      simp [hbe, chunksOf_nil]
    | succ n ih =>
      intro b hb
      by_cases hbe : b = []
      · simp [hbe, chunksOf_nil]
      · rw [chunksOf]
        have hcnz : ¬ (chunk_size = 0 ∨ b = []) := by
          rintro (h | h)
          · omega
          · exact hbe h
        simp only [hcnz, dite_false, List.flatten_cons]
        have hlen : (b.drop chunk_size).length ≤ n := by
          have : 0 < b.length := List.length_pos.mpr hbe
          simp only [List.length_drop]
          omega
        rw [ih _ hlen, List.take_append_drop]
  exact H b.length b le_rfl

lemma foldl_hdrStep_fst (md5 : Bytes → Bytes) (b64 : Bytes → String)
    (chunks : List Bytes) (acc : Bytes) (lst : List ChunkHeaders) :
    (chunks.foldl (hdrStep md5 b64) (acc, lst)).1 = acc ++ chunks.flatten := by
  induction chunks generalizing acc lst with
  | nil => simp
  | cons c cs ih =>
    simp only [List.foldl_cons, hdrStep, List.flatten_cons, ih, List.append_assoc]

lemma foldl_hdrStep_snd (md5 : Bytes → Bytes) (b64 : Bytes → String)
    (chunks : List Bytes) (acc : Bytes) (lst : List ChunkHeaders) :
    (chunks.foldl (hdrStep md5 b64) (acc, lst)).2
      = lst ++ (List.range chunks.length).map (fun j =>
          ⟨"application/octet-stream",
           "md5=" ++ b64 (md5 (acc ++ ((chunks.take (j + 1)).flatten)))⟩) := by
  induction chunks generalizing acc lst with
  | nil => simp
  | cons c cs ih =>
    simp only [List.foldl_cons, hdrStep]
    rw [ih]
    rw [List.length_cons, List.range_succ_eq_map, List.map_cons, List.map_map]
    simp only [List.take_succ_cons, List.flatten_cons, List.take_zero,
      List.flatten_nil, List.append_nil, List.append_assoc, List.singleton_append,
      List.cons_append]
    refine congrArg (lst ++ ·) (congrArg (_ :: ·) ?_)
    apply List.map_congr_left
    intro j _
    simp [List.append_assoc, Function.comp]

lemma foldl_append_eq_flatten (l : List Bytes) (acc : Bytes) :
    l.foldl (fun s chunk => s ++ chunk) acc = acc ++ l.flatten := by
  induction l generalizing acc with
  | nil => simp
  | cons c cs ih => simp [ih, List.append_assoc]

lemma construct_headers_snd (md5 : Bytes → Bytes) (b64 : Bytes → String)
    (payload : Bytes) (dt_iso : String) (chunk_size : Nat) :
    (construct_headers md5 b64 payload dt_iso chunk_size).2
      = (List.range (chunksOf chunk_size payload).length).map (fun j =>
          ⟨"application/octet-stream",
           "md5=" ++ b64 (md5 (((chunksOf chunk_size payload).take (j + 1)).flatten))⟩) := by
  simp [construct_headers, foldl_hdrStep_snd]

lemma construct_headers_fst_digest (md5 : Bytes → Bytes) (b64 : Bytes → String)
    (payload : Bytes) (dt_iso : String) (chunk_size : Nat) (hcs : 0 < chunk_size) :
    (construct_headers md5 b64 payload dt_iso chunk_size).1.digest
      = "md5=" ++ b64 (md5 payload) := by
  simp [construct_headers, foldl_hdrStep_fst, chunksOf_flatten _ hcs]

/-- C1: for every payload split into fixed-size chunks `c0..cn-1` by
`_construct_headers`, the `Digest` header attached to chunk `i` is the
(`md5=`-prefixed) base64-encoded md5 of the concatenation of chunks 0..i —
not of chunk `i` alone — the whole-file headers carry the digest of the full
payload, and the digest attached to the final chunk equals that whole-file
digest placed in the finalize headers. -/
theorem construct_headers_cumulative_digest (md5 : Bytes → Bytes)
    (b64 : Bytes → String) (payload : Bytes) (dt_iso : String)
    (chunk_size : Nat) (hcs : 0 < chunk_size) :
    (∀ i (hi : i < (construct_headers md5 b64 payload dt_iso chunk_size).2.length),
        ((construct_headers md5 b64 payload dt_iso chunk_size).2.get ⟨i, hi⟩).digest
          = "md5=" ++ b64 (md5 (((chunksOf chunk_size payload).take (i + 1)).flatten)))
    ∧ (construct_headers md5 b64 payload dt_iso chunk_size).1.digest
        = "md5=" ++ b64 (md5 payload)
    ∧ ∀ hne : (construct_headers md5 b64 payload dt_iso chunk_size).2 ≠ [],
        ((construct_headers md5 b64 payload dt_iso chunk_size).2.getLast hne).digest
          = (construct_headers md5 b64 payload dt_iso chunk_size).1.digest := by
  have hget : ∀ i (hi : i < (construct_headers md5 b64 payload dt_iso chunk_size).2.length),
      ((construct_headers md5 b64 payload dt_iso chunk_size).2.get ⟨i, hi⟩).digest
        = "md5=" ++ b64 (md5 (((chunksOf chunk_size payload).take (i + 1)).flatten)) := by
    intro i hi
    have hi' := hi
    rw [construct_headers_snd, List.length_map, List.length_range] at hi'
    have : (construct_headers md5 b64 payload dt_iso chunk_size).2.get ⟨i, hi⟩
        = ⟨"application/octet-stream",
           "md5=" ++ b64 (md5 (((chunksOf chunk_size payload).take (i + 1)).flatten))⟩ := by
      rw [List.get_of_eq (construct_headers_snd md5 b64 payload dt_iso chunk_size) ⟨i, hi⟩]
      simp
    rw [this]
  refine ⟨hget, construct_headers_fst_digest md5 b64 payload dt_iso chunk_size hcs, ?_⟩
  intro hne
  have hlen : 0 < (construct_headers md5 b64 payload dt_iso chunk_size).2.length :=
    List.length_pos.mpr hne
  rw [List.getLast_eq_get]
  rw [hget _ _]
  have hn : (construct_headers md5 b64 payload dt_iso chunk_size).2.length
      = (chunksOf chunk_size payload).length := by
    rw [construct_headers_snd, List.length_map, List.length_range]
  rw [construct_headers_fst_digest md5 b64 payload dt_iso chunk_size hcs]
  rw [hn]
  have hnpos : 0 < (chunksOf chunk_size payload).length := by omega
  have htake : (chunksOf chunk_size payload).length - 1 + 1
      = (chunksOf chunk_size payload).length := by omega
  rw [htake, List.take_length, chunksOf_flatten _ hcs]

/-- Witness for `construct_headers_cumulative_digest` at a concrete payload,
chunk size 2, and a concrete digest/encoding pair. -/
theorem construct_headers_cumulative_digest_witness :
    (construct_headers (fun b => b) (fun b => toString b.length)
        [10, 20, 30] "2023-01-01" 2).1.digest
      = "md5=" ++ toString ([10, 20, 30] : Bytes).length := by
  exact (construct_headers_cumulative_digest (fun b => b)
    (fun b => toString b.length) [10, 20, 30] "2023-01-01" 2 (by decide)).2.1

/-- C7: the content digest returned by `_generate_md5_token` is the base64
encoding of the md5 of the stream's entire contents, independently of the
(positive) block size used to read the stream: any block size yields the same
value as hashing the whole content at once, and the source's 4096-byte block
size in particular does. -/
theorem generate_md5_token_block_size_independent (md5 : Bytes → Bytes)
    (b64 : Bytes → String) (content : Bytes) (block_size : Nat)
    (hbs : 0 < block_size) :
    generate_md5_token_block md5 b64 block_size content = b64 (md5 content)
    ∧ generate_md5_token md5 b64 content = b64 (md5 content) := by
  constructor
  · simp [generate_md5_token_block, foldl_append_eq_flatten,
      chunksOf_flatten _ hbs]
  · simp [generate_md5_token, generate_md5_token_block,
      foldl_append_eq_flatten, chunksOf_flatten _ (by omega : (0:Nat) < 4096)]

/-- Witness for `generate_md5_token_block_size_independent` at block size 1
and a concrete stream. -/
theorem generate_md5_token_block_size_independent_witness :
    generate_md5_token_block (fun b => b) (fun b => toString b.length)
      1 [7, 8, 9] = "3" := by
  have h := (generate_md5_token_block_size_independent (fun b => b)
    (fun b => toString b.length) [7, 8, 9] 1 (by decide)).1
  rw [h]
  rfl

/-- One HTTP request issued by the multipart upload path of `_put_file`:
the Negotiate (upload-initiation) post, a per-chunk part transmission, or the
Finalize (completion) post. -/
inductive Request where
  | negotiate (url : String)
  | chunkPut (url : String) (data : Bytes) (headers : ChunkHeaders)
  | finalize (url : String) (headers : UploadHeaders)
deriving DecidableEq

/-- The runtime failure raised inside the multipart branch of `_put_file`:
after the Negotiate post, `operation_id = resp.json()["operationId"]`
subscripts the un-awaited coroutine returned by `resp.json()` and raises
`TypeError` (and even past that line, `await asyncio.gather(put_data())`
would raise `TypeError` as well, because `put_data` contains `yield` and is
therefore an async generator, not an awaitable — so its body never runs and
no chunk is ever transmitted). -/
inductive PutError where
  | coroutineSubscripted
deriving DecidableEq

/-- The multipart branch of `FusionHTTPFileSystem._put_file`: posts the
Negotiate request at the operations endpoint, then crashes with `TypeError`
before transmitting any chunk or issuing the Finalize post (see `PutError`).
The result is the list of requests actually issued together with the raised
error; the Python parameters (payload, chunk size, headers) are never
consulted past the Negotiate post. -/
def put_file_multipart (lpath : Bytes) (rpath : String) (chunk_size : Nat)
    (headers : UploadHeaders) (chunk_headers_lst : List ChunkHeaders) :
    List Request × Option PutError :=
  ([Request.negotiate (rpath ++ "/operations?operationType=upload")],
   some PutError.coroutineSubscripted)

/-- Embedding of `FusionHTTPFileSystem.put` with `multipart=True`: builds the
headers via `_construct_headers` — which, because `chunk_size` is passed
positionally into the unused `url` parameter there, always chunks with the
default `5 * 2 ** 20` — then runs the multipart `_put_file`. `dt_iso`
abstracts the timestamp drawn from `rpath`. -/
def put (md5 : Bytes → Bytes) (b64 : Bytes → String) (lpath : Bytes)
    (rpath : String) (dt_iso : String) (chunk_size : Nat) :
    List Request × Option PutError :=
  let hp := construct_headers md5 b64 lpath dt_iso (5 * 2 ^ 20)
  put_file_multipart lpath rpath chunk_size hp.1 hp.2

/-- C9 is violated by the code: for a zero-length payload uploaded via the
multipart path, the Negotiate request is issued and the per-chunk header
list built by `_construct_headers` is indeed empty, but `_put_file` then
raises `TypeError` (subscripting the un-awaited `resp.json()` coroutine), so
the Finalize request — which the claim says carries the digest of the empty
byte sequence — is never issued. -/
theorem zero_length_multipart_upload_crashes (md5 : Bytes → Bytes)
    (b64 : Bytes → String) (rpath dt_iso : String) (chunk_size : Nat) :
    put md5 b64 [] rpath dt_iso chunk_size
      = ([Request.negotiate (rpath ++ "/operations?operationType=upload")],
         some PutError.coroutineSubscripted)
    ∧ (construct_headers md5 b64 [] dt_iso (5 * 2 ^ 20)).2 = []
    ∧ ∀ url hdrs,
        Request.finalize url hdrs ∉ (put md5 b64 [] rpath dt_iso chunk_size).1 := by
  refine ⟨rfl, ?_, ?_⟩
  · simp [construct_headers_snd, chunksOf_nil]
  · intro url hdrs
    simp [put, put_file_multipart]

/-- One row of a file-inventory dataframe (`df_local` / `df_fusion`):
`url` is the canonical logical key the two sides are joined on, `md5` the
content digest. -/
structure FileRecord where
  path : String
  url : String
  md5 : String
deriving DecidableEq

/-- One row of the merged dataframe in `_synchronize`; a missing side of the
join (a pandas `NaN`) is `none`. -/
structure JoinRow where
  url : String
  md5_local : Option String
  md5_fusion : Option String
deriving DecidableEq

/-- Pandas `!=` on the two digest columns: `NaN` compares unequal to
everything (including another `NaN`). -/
def pdNe : Option String → Option String → Bool
  | some a, some b => a != b
  | _, _ => true

/-- Pandas `df_local.merge(df_fusion, on="url", how="left")`: every `df_local` row
is kept; it is replicated for each matching `df_fusion` row, or kept once
with a `NaN` fusion side when no match exists. -/
def mergeLeft (df_local df_fusion : List FileRecord) : List JoinRow :=
  df_local.flatMap (fun l =>
    let ms := df_fusion.filter (fun f => f.url == l.url)
    if ms.isEmpty then [⟨l.url, some l.md5, none⟩]
    else ms.map (fun f => ⟨l.url, some l.md5, some f.md5⟩))

/-- Pandas `df_local.merge(df_fusion, on="url", how="right")`: every `df_fusion`
row is kept; it is replicated for each matching `df_local` row, or kept once
with a `NaN` local side when no match exists. -/
def mergeRight (df_local df_fusion : List FileRecord) : List JoinRow :=
  df_fusion.flatMap (fun f =>
    let ms := df_local.filter (fun l => l.url == f.url)
    if ms.isEmpty then [⟨f.url, none, some f.md5⟩]
    else ms.map (fun l => ⟨f.url, some l.md5, some f.md5⟩))

/-- The upload branch of `_synchronize`: left-join the inventories on `url`
and keep the rows where the digest columns differ (pandas `!=`, so a missing
fusion digest counts as different). These rows are the transfer tasks handed
to `_upload`. -/
def reconcileUpload (df_local df_fusion : List FileRecord) : List JoinRow :=
  (mergeLeft df_local df_fusion).filter (fun r => pdNe r.md5_local r.md5_fusion)

/-- The download branch of `_synchronize`: right-join the inventories on
`url` and keep the rows where the digest columns differ. These rows are the
transfer tasks handed to `_download`. -/
def reconcileDownload (df_local df_fusion : List FileRecord) : List JoinRow :=
  (mergeRight df_local df_fusion).filter (fun r => pdNe r.md5_local r.md5_fusion)

/-- Embedding of `fs_sync._synchronize`: dispatch on the direction string; any other
direction raises `ValueError("Unknown direction of operation.")`. -/
def synchronize (df_local df_fusion : List FileRecord) (direction : String) :
    Except String (List JoinRow) :=
  if direction = "upload" then .ok (reconcileUpload df_local df_fusion)
  else if direction = "download" then .ok (reconcileDownload df_local df_fusion)
  else .error "Unknown direction of operation."

/-- A dataframe models an inventory when its logical keys are unique. -/
abbrev nodupKeys (df : List FileRecord) : Prop := (df.map (fun r => r.url)).Nodup

/-- The spec's divergence condition for an upload, written from its words:
the remote digest for the local record's key is missing, or differs from the
local digest. -/
def remoteMissingOrDiffers (df_fusion : List FileRecord) (l : FileRecord) : Bool :=
  match df_fusion.find? (fun f => f.url == l.url) with
  | none => true
  | some f => f.md5 != l.md5

lemma nodupKeys_url_inj {df : List FileRecord} (h : nodupKeys df) :
    ∀ a ∈ df, ∀ b ∈ df, a.url = b.url → a = b := by
  induction df with
  | nil => simp
  | cons x xs ih =>
    rw [nodupKeys, List.map_cons, List.nodup_cons] at h
    rintro a ha b hb hab
    rcases List.mem_cons.mp ha with rfl | ha' <;>
      rcases List.mem_cons.mp hb with rfl | hb'
    · rfl
    · exact absurd (by rw [hab]; exact List.mem_map_of_mem _ hb') h.1
    · exact absurd (by rw [← hab]; exact List.mem_map_of_mem _ ha') h.1
    · exact ih h.2 a ha' b hb' hab


lemma mem_reconcileUpload_iff (dfL dfF : List FileRecord) (u : String) :
    (∃ r ∈ reconcileUpload dfL dfF, r.url = u) ↔
    ∃ l ∈ dfL, l.url = u ∧
      ((dfF.filter (fun f => f.url == l.url)).isEmpty = true
       ∨ ∃ f ∈ dfF, f.url = l.url ∧ l.md5 ≠ f.md5) := by
  constructor
  · rintro ⟨r, hr, rfl⟩
    rw [reconcileUpload, List.mem_filter] at hr
    obtain ⟨hmem, hne⟩ := hr
    rw [mergeLeft, List.mem_flatMap] at hmem
    obtain ⟨l, hl, hrin⟩ := hmem
    simp only at hrin
    by_cases hE : (dfF.filter (fun f => f.url == l.url)).isEmpty = true
    · rw [if_pos hE, List.mem_singleton] at hrin
      subst hrin
      exact ⟨l, hl, rfl, Or.inl hE⟩
    · rw [if_neg hE, List.mem_map] at hrin
      obtain ⟨f, hf, hrf⟩ := hrin
      rw [List.mem_filter] at hf
      subst hrf
      rw [pdNe] at hne
      exact ⟨l, hl, rfl,
        Or.inr ⟨f, hf.1, by simpa using hf.2, by simpa using hne⟩⟩
  · rintro ⟨l, hl, hlu, hE | ⟨f, hf, hfu, hmd⟩⟩
    · refine ⟨⟨l.url, some l.md5, none⟩, ?_, hlu⟩
      rw [reconcileUpload, List.mem_filter]
      refine ⟨?_, rfl⟩
      rw [mergeLeft, List.mem_flatMap]
      refine ⟨l, hl, ?_⟩
      simp only
      rw [if_pos hE, List.mem_singleton]
    · refine ⟨⟨l.url, some l.md5, some f.md5⟩, ?_, hlu⟩
      rw [reconcileUpload, List.mem_filter]
      have hfmem : f ∈ dfF.filter (fun x => x.url == l.url) :=
        List.mem_filter.mpr ⟨hf, by simp [hfu]⟩
      have hne : ¬ (dfF.filter (fun x => x.url == l.url)).isEmpty = true := by
        intro hE
        rw [List.isEmpty_iff] at hE
        rw [hE] at hfmem
        exact absurd hfmem (List.not_mem_nil f)
      constructor
      · rw [mergeLeft, List.mem_flatMap]
        refine ⟨l, hl, ?_⟩
        simp only
        rw [if_neg hne, List.mem_map]
        exact ⟨f, hfmem, rfl⟩
      · simp [pdNe, hmd]

lemma mem_reconcileDownload_iff (dfL dfF : List FileRecord) (u : String) :
    (∃ r ∈ reconcileDownload dfL dfF, r.url = u) ↔
    ∃ f ∈ dfF, f.url = u ∧
      ((dfL.filter (fun l => l.url == f.url)).isEmpty = true
       ∨ ∃ l ∈ dfL, l.url = f.url ∧ l.md5 ≠ f.md5) := by
  constructor
  · rintro ⟨r, hr, rfl⟩
    rw [reconcileDownload, List.mem_filter] at hr
    obtain ⟨hmem, hne⟩ := hr
    rw [mergeRight, List.mem_flatMap] at hmem
    obtain ⟨f, hf, hrin⟩ := hmem
    simp only at hrin
    by_cases hE : (dfL.filter (fun l => l.url == f.url)).isEmpty = true
    · rw [if_pos hE, List.mem_singleton] at hrin
      subst hrin
      exact ⟨f, hf, rfl, Or.inl hE⟩
    · rw [if_neg hE, List.mem_map] at hrin
      obtain ⟨l, hlf, hrf⟩ := hrin
      rw [List.mem_filter] at hlf
      subst hrf
      rw [pdNe] at hne
      exact ⟨f, hf, rfl,
        Or.inr ⟨l, hlf.1, by simpa using hlf.2, by simpa using hne⟩⟩
  · rintro ⟨f, hf, hfu, hE | ⟨l, hl, hlu, hmd⟩⟩
    · refine ⟨⟨f.url, none, some f.md5⟩, ?_, hfu⟩
      rw [reconcileDownload, List.mem_filter]
      refine ⟨?_, rfl⟩
      rw [mergeRight, List.mem_flatMap]
      refine ⟨f, hf, ?_⟩
      simp only
      rw [if_pos hE, List.mem_singleton]
    · refine ⟨⟨f.url, some l.md5, some f.md5⟩, ?_, hfu⟩
      rw [reconcileDownload, List.mem_filter]
      have hlmem : l ∈ dfL.filter (fun x => x.url == f.url) :=
        List.mem_filter.mpr ⟨hl, by simp [hlu]⟩
      have hne : ¬ (dfL.filter (fun x => x.url == f.url)).isEmpty = true := by
        intro hE
        rw [List.isEmpty_iff] at hE
        rw [hE] at hlmem
        exact absurd hlmem (List.not_mem_nil l)
      constructor
      · rw [mergeRight, List.mem_flatMap]
        refine ⟨f, hf, ?_⟩
        simp only
        rw [if_neg hne, List.mem_map]
        exact ⟨l, hlmem, rfl⟩
      · simp [pdNe, hmd]

lemma find?_url_eq_some {df : List FileRecord} (hF : nodupKeys df)
    (f : FileRecord) (hf : f ∈ df) (u : String) (hu : f.url = u) :
    df.find? (fun x => x.url == u) = some f := by
  cases hfind : df.find? (fun x => x.url == u) with
  | none =>
    rw [List.find?_eq_none] at hfind
    exact absurd (by simp [hu]) (hfind f hf)
  | some g =>
    have hg := List.find?_some hfind
    have hgmem : g ∈ df := List.mem_of_find?_eq_some hfind
    have : g = f :=
      nodupKeys_url_inj hF g hgmem f hf (by rw [hu]; simpa using hg)
    rw [this]

/-- C2: with direction Upload, every local-inventory key is kept by the left
join, and the filtered join rows (the transfer tasks) contain a row for a
local record exactly when its remote digest is missing or differs from the
local digest; a key present on both sides with equal digests yields no task,
in either direction. -/
theorem upload_reconciliation_exact (dfL dfF : List FileRecord)
    (hL : nodupKeys dfL) (hF : nodupKeys dfF) :
    (∀ l ∈ dfL, ∃ r ∈ mergeLeft dfL dfF, r.url = l.url)
    ∧ (∀ l ∈ dfL,
        ((∃ r ∈ reconcileUpload dfL dfF, r.url = l.url)
          ↔ remoteMissingOrDiffers dfF l = true))
    ∧ (∀ l ∈ dfL, ∀ f ∈ dfF, l.url = f.url → l.md5 = f.md5 →
        (¬ ∃ r ∈ reconcileUpload dfL dfF, r.url = l.url)
        ∧ ¬ ∃ r ∈ reconcileDownload dfL dfF, r.url = l.url) := by
  refine ⟨?_, ?_, ?_⟩
  · intro l hl
    by_cases hE : (dfF.filter (fun f => f.url == l.url)).isEmpty = true
    · refine ⟨⟨l.url, some l.md5, none⟩, ?_, rfl⟩
      rw [mergeLeft, List.mem_flatMap]
      refine ⟨l, hl, ?_⟩
      simp only
      rw [if_pos hE, List.mem_singleton]
    · have hnn : dfF.filter (fun f => f.url == l.url) ≠ [] := by
        intro h0
        exact hE (by rw [h0]; rfl)
      obtain ⟨f, hfmem⟩ := List.exists_mem_of_ne_nil _ hnn
      refine ⟨⟨l.url, some l.md5, some f.md5⟩, ?_, rfl⟩
      rw [mergeLeft, List.mem_flatMap]
      refine ⟨l, hl, ?_⟩
      simp only
      rw [if_neg hE, List.mem_map]
      exact ⟨f, hfmem, rfl⟩
  · intro l hl
    rw [mem_reconcileUpload_iff]
    constructor
    · rintro ⟨l', hl', hl'u, hE | ⟨f, hf, hfu, hmd⟩⟩
      · have : l' = l := nodupKeys_url_inj hL l' hl' l hl hl'u
        subst this
        rw [remoteMissingOrDiffers]
        rw [List.isEmpty_iff, List.filter_eq_nil_iff] at hE
        rw [List.find?_eq_none.mpr (fun f hfm => by simpa using hE f hfm)]
      · have : l' = l := nodupKeys_url_inj hL l' hl' l hl hl'u
        subst this
        rw [remoteMissingOrDiffers, find?_url_eq_some hF f hf l'.url hfu]
        simpa using fun h => hmd h.symm
    · intro hcond
      rw [remoteMissingOrDiffers] at hcond
      cases hfind : dfF.find? (fun x => x.url == l.url) with
      | none =>
        refine ⟨l, hl, rfl, Or.inl ?_⟩
        rw [List.find?_eq_none] at hfind
        rw [List.isEmpty_iff, List.filter_eq_nil_iff]
        intro f hfm
        simpa using hfind f hfm
      | some f =>
        rw [hfind] at hcond
        have hfmem : f ∈ dfF := List.mem_of_find?_eq_some hfind
        have hfu : f.url = l.url := by
          have := List.find?_some hfind
          simpa using this
        exact ⟨l, hl, rfl, Or.inr ⟨f, hfmem, hfu,
          fun h => by simp [h] at hcond⟩⟩
  · intro l hl f hf hurl hmd5
    constructor
    · rw [mem_reconcileUpload_iff]
      rintro ⟨l', hl', hl'u, hE | ⟨f', hf', hf'u, hmd⟩⟩
      · have : l' = l := nodupKeys_url_inj hL l' hl' l hl hl'u
        subst this
        rw [List.isEmpty_iff, List.filter_eq_nil_iff] at hE
        exact hE f hf (by simp [hurl])
      · have hll : l' = l := nodupKeys_url_inj hL l' hl' l hl hl'u
        subst hll
        have : f' = f := nodupKeys_url_inj hF f' hf' f hf (by rw [hf'u, hurl])
        subst this
        exact hmd (by rw [hmd5])
    · rw [mem_reconcileDownload_iff]
      rintro ⟨f', hf', hf'u, hE | ⟨l', hl', hl'u, hmd⟩⟩
      · have : f' = f := nodupKeys_url_inj hF f' hf' f hf (by rw [hf'u, hurl])
        subst this
        rw [List.isEmpty_iff, List.filter_eq_nil_iff] at hE
        exact hE l hl (by simp [hurl])
      · have hff : f' = f := nodupKeys_url_inj hF f' hf' f hf (by rw [hf'u, hurl])
        subst hff
        have : l' = l := nodupKeys_url_inj hL l' hl' l hl (by rw [hl'u, hurl])
        subst this
        exact hmd (by rw [hmd5])

/-- Witness for `upload_reconciliation_exact`: local `{a: "X"}`, remote
`{a: "Y"}` yields an upload task for key `u`. -/
theorem upload_reconciliation_exact_witness :
    ∃ r ∈ reconcileUpload [⟨"a", "u", "X"⟩] [⟨"a", "u", "Y"⟩], r.url = "u" := by
  have h := upload_reconciliation_exact [⟨"a", "u", "X"⟩] [⟨"a", "u", "Y"⟩]
    (by decide) (by decide)
  exact (h.2.1 ⟨"a", "u", "X"⟩ (by decide)).mpr (by decide)

/-- C6: `reconcile(L, R, Upload)` and the swapped `reconcile(R, L, Download)`
produce transfer-task sets over the same logical keys. -/
theorem reconcile_direction_symmetry (dfL dfF : List FileRecord) (u : String) :
    (∃ r ∈ reconcileUpload dfL dfF, r.url = u)
      ↔ ∃ r ∈ reconcileDownload dfF dfL, r.url = u := by
  rw [mem_reconcileUpload_iff, mem_reconcileDownload_iff]
  constructor
  · rintro ⟨l, hl, hlu, hE | ⟨f, hf, hfu, hmd⟩⟩
    · exact ⟨l, hl, hlu, Or.inl hE⟩
    · exact ⟨l, hl, hlu, Or.inr ⟨f, hf, hfu, hmd.symm⟩⟩
  · rintro ⟨l, hl, hlu, hE | ⟨f, hf, hfu, hmd⟩⟩
    · exact ⟨l, hl, hlu, Or.inl hE⟩
    · exact ⟨l, hl, hlu, Or.inr ⟨f, hf, hfu, hmd.symm⟩⟩

/-- One row of the download plan consumed by `_download` (`path_fusion` is
the local target path, `url` the remote source). -/
structure DownloadRow where
  path_fusion : String
  url : String
deriving DecidableEq

/-- A per-task result row `(succeeded, path, error-message)` as produced by
`_download_files` / consumed by the `fsync` commit check via `i[0]`. -/
abbrev Outcome := Bool × String × Option String

/-- The inner `_download_files` of `_download`: the remote transfer is the
external effect `transfer source target`; a raised exception is `.error msg`
and is captured into the outcome rather than propagated. (The preceding
best-effort `mkdir` has its own exception swallowed by the source and does
not affect the outcome.) -/
def download_files (transfer : String → String → Except String Unit)
    (row : DownloadRow) : Outcome :=
  match transfer row.url row.path_fusion with
  | .ok _ => (true, row.path_fusion, none)
  | .error msg => (false, row.path_fusion, some msg)

/-- Embedding of `fs_sync._download`: applies `_download_files` to every row of the plan;
`joblib.Parallel` (taken for more than one row) returns results in dispatch
order, and the single-row branch is a list comprehension, so both branches
are order-preserving maps. -/
def download (transfer : String → String → Except String Unit)
    (df : List DownloadRow) : List Outcome :=
  df.map (download_files transfer)

/-- C5: in a download batch where exactly the distinguished task fails (its
transfer raises `e`) and every other task's transfer succeeds, the failing
task's outcome records the failure with the error message while all sibling
outcomes report success — the batch is neither aborted nor truncated. -/
theorem download_partial_failure_isolated
    (transfer : String → String → Except String Unit)
    (pre post : List DownloadRow) (bad : DownloadRow) (e : String)
    (hfail : transfer bad.url bad.path_fusion = .error e)
    (hok : ∀ r ∈ pre ++ post, transfer r.url r.path_fusion = .ok ()) :
    download transfer (pre ++ bad :: post)
      = pre.map (fun r => (true, r.path_fusion, none))
        ++ (false, bad.path_fusion, some e)
          :: post.map (fun r => (true, r.path_fusion, none)) := by
  have hpre : ∀ r ∈ pre, download_files transfer r = (true, r.path_fusion, none) := by
    intro r hr
    rw [download_files, hok r (List.mem_append_left _ hr)]
  have hpost : ∀ r ∈ post, download_files transfer r = (true, r.path_fusion, none) := by
    intro r hr
    rw [download_files, hok r (List.mem_append_right _ hr)]
  rw [download, List.map_append, List.map_cons]
  rw [download_files, hfail]
  rw [List.map_congr_left hpre, List.map_congr_left hpost]

/-- Witness for `download_partial_failure_isolated`: a three-task batch whose
middle transfer fails. -/
theorem download_partial_failure_isolated_witness :
    download
      (fun u _ => if u = "u2" then .error "boom" else .ok ())
      [⟨"p1", "u1"⟩, ⟨"p2", "u2"⟩, ⟨"p3", "u3"⟩]
      = [(true, "p1", none), (false, "p2", some "boom"), (true, "p3", none)] := by
  exact download_partial_failure_isolated
    (fun u _ => if u = "u2" then .error "boom" else .ok ())
    [⟨"p1", "u1"⟩] [⟨"p3", "u3"⟩] ⟨"p2", "u2"⟩ "boom" rfl
    (by
      intro r hr
      rcases List.mem_append.mp hr with h | h <;>
        (rw [List.mem_singleton] at h; subst h; rfl))

/-- The body of one non-converged `fsync` cycle, after the transfer batch
has produced `res`: advance the committed baseline to the freshly scanned
state `local_state_temp` when `len(res) == 0 or all(i[0] for i in res)`,
otherwise keep the old `local_state`. A converged scan (equal states) leaves
the baseline untouched and sleeps. -/
def fsyncCycle (sync : Unit → List Outcome)
    (local_state local_state_temp : List FileRecord) : List FileRecord :=
  if local_state_temp = local_state then local_state
  else
    let res := sync ()
    if res.length = 0 ∨ res.all (fun i => i.1) then local_state_temp
    else local_state

/-- C4: in a cycle whose fresh scan differs from the committed baseline, the
baseline advances to the scanned state exactly when the transfer plan was
empty or every outcome in the result batch reports success, and on any
failed outcome it is left unchanged. -/
theorem baseline_advances_iff_all_succeed (sync : Unit → List Outcome)
    (local_state local_state_temp : List FileRecord)
    (hne : local_state_temp ≠ local_state) :
    (fsyncCycle sync local_state local_state_temp = local_state_temp
      ↔ (sync () = [] ∨ ∀ o ∈ sync (), o.1 = true))
    ∧ ((∃ o ∈ sync (), o.1 = false)
        → fsyncCycle sync local_state local_state_temp = local_state) := by
  have hcond : ((sync ()).length = 0 ∨ (sync ()).all (fun i => i.1))
      ↔ (sync () = [] ∨ ∀ o ∈ sync (), o.1 = true) := by
    rw [List.length_eq_zero, List.all_eq_true]
  constructor
  · constructor
    · intro hadv
      rw [fsyncCycle, if_neg hne] at hadv
      simp only at hadv
      by_cases hc : (sync ()).length = 0 ∨ (sync ()).all (fun i => i.1)
      · exact hcond.mp hc
      · rw [if_neg hc] at hadv
        exact absurd hadv.symm hne
    · intro hc
      rw [fsyncCycle, if_neg hne]
      simp only
      rw [if_pos (hcond.mpr hc)]
  · rintro ⟨o, ho, hofalse⟩
    rw [fsyncCycle, if_neg hne]
    simp only
    rw [if_neg]
    rintro (hnil | hall)
    · rw [List.length_eq_zero] at hnil
      rw [hnil] at ho
      exact absurd ho (List.not_mem_nil o)
    · rw [List.all_eq_true] at hall
      have := hall o ho
      rw [hofalse] at this
      exact Bool.false_ne_true this

/-- Witness for `baseline_advances_iff_all_succeed`: a one-task batch whose
outcome failed leaves the baseline unchanged. -/
theorem baseline_advances_iff_all_succeed_witness :
    fsyncCycle (fun _ => [(false, "p", some "boom")]) []
      [⟨"a", "u", "X"⟩] = [] := by
  exact (baseline_advances_iff_all_succeed
    (fun _ => [(false, "p", some "boom")]) [] [⟨"a", "u", "X"⟩]
    (by decide)).2 ⟨(false, "p", some "boom"), by decide, rfl⟩

/-- The pre-loop section of `fsync` (argument normalisation, the two
asserts, product expansion, and the third assert), everything that runs
before the `while True` sync loop. `expand p` abstracts the dataset
identifiers read from the remote catalog's product resource; a failed
`assert` is `.error` with its message. -/
def fsyncValidate (products datasets : Option (List String))
    (direction : String) (expand : String → List String) :
    Except String (List String) :=
  let ds := datasets.getD []
  let ps := products.getD []
  if ¬ (ps.length > 0 ∨ ds.length > 0) then
    .error "At least one list products or datasets should be non-empty."
  else if ¬ (direction = "upload" ∨ direction = "download") then
    .error "The direction must be either upload or download."
  else
    let ds := ds ++ ps.flatMap expand
    if ¬ (ds.length > 0) then
      .error "The supplied products did not contain any datasets."
    else .ok ds

/-- Counterexample to C8 as stated: with a non-empty datasets selection
`["d"]` and a product list `["p"]` that expands to zero datasets, no startup
assertion fires — `fsync` proceeds into the sync loop instead of failing. -/
theorem fsync_startup_zero_expansion_not_fatal :
    (["p"].flatMap (fun _ => ([] : List String)) = [])
    ∧ fsyncValidate (some ["p"]) (some ["d"]) "upload" (fun _ => [])
        = .ok ["d"] := by
  constructor
  · rfl
  · rfl

/-- C8 (amended): `fsync` fails at startup, before the first sync cycle,
whenever the products and datasets selections are both empty, or the
direction is neither "upload" nor "download", or the datasets selection is
empty and the supplied products expand to zero datasets (i.e. the combined
dataset list is empty). -/
theorem fsync_startup_preconditions (products datasets : Option (List String))
    (direction : String) (expand : String → List String)
    (h : (products.getD [] = [] ∧ datasets.getD [] = [])
      ∨ (direction ≠ "upload" ∧ direction ≠ "download")
      ∨ (datasets.getD [] = []
          ∧ (products.getD []).flatMap expand = [])) :
    ∃ msg, fsyncValidate products datasets direction expand = .error msg := by
  by_cases hfirst : ¬ ((products.getD []).length > 0
      ∨ (datasets.getD []).length > 0)
  · refine ⟨"At least one list products or datasets should be non-empty.", ?_⟩
    rw [fsyncValidate]
    exact if_pos hfirst
  · by_cases hsecond : ¬ (direction = "upload" ∨ direction = "download")
    · refine ⟨"The direction must be either upload or download.", ?_⟩
      rw [fsyncValidate]
      rw [if_neg hfirst]
      exact if_pos hsecond
    · have hcomb : datasets.getD [] = []
          ∧ (products.getD []).flatMap expand = [] := by
        rcases h with ⟨hp, hd⟩ | ⟨hu, hdn⟩ | hc
        · exact absurd (fun hor => by
            rcases hor with hlen | hlen <;> simp [hp, hd] at hlen) hfirst
        · exact absurd (fun hor => by
            rcases hor with hdir | hdir
            · exact hu hdir
            · exact hdn hdir) hsecond
        · exact hc
      refine ⟨"The supplied products did not contain any datasets.", ?_⟩
      rw [fsyncValidate]
      rw [if_neg hfirst, if_neg hsecond]
      simp only
      rw [if_pos]
      simp [hcomb.1, hcomb.2]

/-- Witness for `fsync_startup_preconditions`: both selections empty. -/
theorem fsync_startup_preconditions_witness :
    ∃ msg, fsyncValidate none none "upload" (fun _ => ["x"]) = .error msg := by
  exact fsync_startup_preconditions none none "upload" (fun _ => ["x"])
    (Or.inl ⟨rfl, rfl⟩)

/-- The caller-visible content of the `datasets` argument object after
`fsync`'s pre-loop section: `datasets = [] if not datasets else datasets`
rebinds the name to a fresh list when the argument is falsy (`None` or
empty), so only a caller-supplied non-empty list stays aliased to the
caller's object and is mutated in place by `datasets += [...]` inside the
products loop — which runs only after both asserts pass. -/
def fsyncCallerDatasets (products datasets : Option (List String))
    (direction : String) (expand : String → List String) :
    Option (List String) :=
  let ds := datasets.getD []
  let ps := products.getD []
  if ps.length > 0 ∨ ds.length > 0 then
    if direction = "upload" ∨ direction = "download" then
      match datasets with
      | none => none
      | some d => if d.isEmpty then some d else some (d ++ ps.flatMap expand)
    else datasets
  else datasets

/-- C10: a call passing a non-empty datasets list together with a non-empty
products list (direction left at its default `"upload"`) mutates the
caller-supplied datasets list object in place, appending the dataset
identifiers of every listed product, before the sync loop starts. -/
theorem fsync_appends_product_datasets_in_place
    (ds ps : List String) (expand : String → List String)
    (hds : ds ≠ []) (hps : ps ≠ []) :
    fsyncCallerDatasets (some ps) (some ds) "upload" expand
      = some (ds ++ ps.flatMap expand) := by
  rw [fsyncCallerDatasets]
  simp only [Option.getD_some]
  rw [if_pos (Or.inl (List.length_pos.mpr hps))]
  rw [if_pos (Or.inl (by trivial))]
  rw [if_neg (fun h => hds (List.isEmpty_iff.mp h))]

/-- Witness for `fsync_appends_product_datasets_in_place`. -/
theorem fsync_appends_product_datasets_in_place_witness :
    fsyncCallerDatasets (some ["p"]) (some ["d"]) "upload" (fun _ => ["x"])
      = some ["d", "x"] := by
  exact fsync_appends_product_datasets_in_place ["d"] ["p"] (fun _ => ["x"])
    (by decide) (by decide)

/-- The inventory paths produced by one directory pass of `_get_local_state`:
`local_files = fs_local.find(local_dir)` lists every file, then
`local_files += [f for flag, f in zip(validate_file_names(...), local_files)
if flag]` appends the validated sublist to the full listing instead of
replacing it (`+=` where the filtering intent requires `=`); each entry then
contributes one inventory row, and the final
`sort_values("path").drop_duplicates()` only reorders rows and collapses
duplicates (modelled by `dedup`; sorting cannot change membership). -/
def get_local_state_paths (validate : String → Bool)
    (found : List String) : List String :=
  (found ++ found.filter validate).dedup

/-- C3 is violated by the code: a file whose path the naming validator
rejects still appears in the resulting local inventory, because the
validation result is appended to — rather than replacing — the full
directory listing. Concretely, with a validator accepting only
`common/d1/good.csv`, the rejected `common/d1/BAD` remains an inventory
row. -/
theorem local_scan_keeps_validator_rejected_file :
    (fun s => s == "common/d1/good.csv") "common/d1/BAD" = false
    ∧ "common/d1/BAD" ∈ get_local_state_paths
        (fun s => s == "common/d1/good.csv")
        ["common/d1/good.csv", "common/d1/BAD"] := by
  constructor
  · rfl
  · decide
